import Mathlib

/-!
Verification of the canals pipeline connection and validation engine
(`canals/pipeline/validation.py`), shallowly embedded in Lean 4.

The socket and component-input data structures live outside the translated
file; they are modelled from the specification's data model (§3), while all
operations (`parse_connection_name`, `find_pipeline_inputs`,
`find_pipeline_outputs`, `find_unambiguous_connection`,
`validate_pipeline_input` and its two helper passes) are translated directly
from the source.
-/

set_option autoImplicit false

namespace Canals

/-- Modelled from the spec: an output socket — "a name, a declared type".
The declared type is a Python class compared by identity; we model it by its
name with decidable equality. -/
structure OutputSocket where
  name : String
  ty : String
deriving DecidableEq

/-- Modelled from the spec: an input socket — "name, declared type,
`taken_by`: empty, or the name of the component currently supplying it via a
graph edge".  `none` models the empty (unconnected) state. -/
structure InputSocket where
  name : String
  ty : String
  taken_by : Option String
deriving DecidableEq

/-- Modelled from the spec: a Python runtime value as far as validation
inspects one — scalars (`None`, integers), strings, and lists.  Validation
only ever asks two questions of a value: its truthiness and whether it is
iterable. -/
inductive PyValue where
  | vNone : PyValue
  | vInt : Int → PyValue
  | vStr : String → PyValue
  | vList : List PyValue → PyValue

/-- Python truthiness (`bool(v)`): `None`, `0`, `""` and `[]` are falsy. -/
def pyTruthy : PyValue → Bool
  | PyValue.vNone => false
  | PyValue.vInt n => n != 0
  | PyValue.vStr s => s != ""
  | PyValue.vList l => !l.isEmpty

/-- `isinstance(v, Iterable)` in Python: strings and lists are iterable,
`None` and integers are not. -/
def pyIterable : PyValue → Bool
  | PyValue.vStr _ => true
  | PyValue.vList _ => true
  | _ => false

/-- Modelled from the spec: a component node of the pipeline graph — its
name, its input and output socket sets, the "accepts variadic input" flag,
and the set of socket names that have declared default values (the
`defaults` attribute of the component instance; an instance without the
attribute is modelled by the empty list). -/
structure ComponentNode where
  name : String
  input_sockets : List InputSocket
  output_sockets : List OutputSocket
  variadic_input : Bool
  defaults : List String
deriving DecidableEq

/-- Modelled from the spec: the pipeline graph — nodes carrying component
data, and directed edges between component names. -/
structure PGraph where
  nodes : List ComponentNode
  edges : List (String × String)
deriving DecidableEq

/-- One caller-supplied `ComponentInput`: socket name / value pairs.
Modelled from the spec: "keyed ... by input-socket name, with an associated
value". -/
abbrev ComponentInputEntry := List (String × PyValue)

/-- Modelled from the spec: the pipeline input map, "external input values
supplied by the caller, keyed first by component name". -/
abbrev InputMap := List (String × ComponentInputEntry)

/-- Python dictionary lookup on an association list (first matching key). -/
def dict_get {α : Type} (m : List (String × α)) (key : String) : Option α :=
  (m.find? (fun p => p.1 == key)).map Prod.snd

/-- `graph.nodes[name]` — look a component node up by name. -/
def lookupNode (g : PGraph) (name : String) : Option ComponentNode :=
  g.nodes.find? (fun n => n.name == name)

/-- `graph.nodes[node]["input_sockets"][socket_name]` — look an input socket
up by name on a component. -/
def lookupSocket (n : ComponentNode) (sname : String) : Option InputSocket :=
  n.input_sockets.find? (fun s => s.name == sname)

/-- `input_data.names()` — the socket names of a component-input entry. -/
def entryNames (entry : ComponentInputEntry) : List String :=
  entry.map Prod.fst

/-- `parse_connection_name`: split a connection string on the first `.`;
a string without a dot maps to `(itself, none)`.  Translated from the
source (`connection.split(".", maxsplit=1)`). -/
def parse_connection_name (connection : List Char) : List Char × Option (List Char) :=
  if '.' ∈ connection then
    (connection.takeWhile (fun c => c != '.'),
     some ((connection.dropWhile (fun c => c != '.')).tail))
  else
    (connection, none)

/-- `find_pipeline_inputs`: for every node, its input sockets whose
`taken_by` is empty.  Translated from the source. -/
def find_pipeline_inputs (g : PGraph) : List (String × List InputSocket) :=
  g.nodes.map (fun n => (n.name, n.input_sockets.filter (fun s => s.taken_by.isNone)))

/-- `graph.out_edges(node)`. -/
def out_edges (g : PGraph) (name : String) : List (String × String) :=
  g.edges.filter (fun e => e.1 == name)

/-- `find_pipeline_outputs`: every node with no outgoing edges, with all of
its output sockets.  Translated from the source. -/
def find_pipeline_outputs (g : PGraph) : List (String × List OutputSocket) :=
  (g.nodes.filter (fun n => (out_edges g n.name).isEmpty)).map
    (fun n => (n.name, n.output_sockets))

/-- The two connect-time error kinds of `PipelineConnectError`. -/
inductive PipelineConnectError where
  | noMatch (from_node to_node : String)
  | ambiguous (from_node to_node : String)
deriving DecidableEq

/-- `itertools.product` on two lists. -/
def itertools_product {α β : Type} (xs : List α) (ys : List β) : List (α × β) :=
  (xs.map (fun x => ys.map (fun y => (x, y)))).flatten

/-- The type-and-availability filtered candidate set of
`find_unambiguous_connection`: pairs of the Cartesian product whose input
socket is not taken and whose declared types are equal.  Translated from
the source. -/
def possible_connections_of (from_sockets : List OutputSocket) (to_sockets : List InputSocket) :
    List (OutputSocket × InputSocket) :=
  (itertools_product from_sockets to_sockets).filter
    (fun p => p.2.taken_by.isNone && p.1.ty == p.2.ty)

/-- The name-equality narrowing of the candidate set.  Translated from the
source (`name_matches`). -/
def name_matches_of (possible : List (OutputSocket × InputSocket)) :
    List (OutputSocket × InputSocket) :=
  possible.filter (fun q => q.2.name == q.1.name)

/-- `find_unambiguous_connection`: translated from the source, including its
final `return possible_connections[0]`. -/
def find_unambiguous_connection (from_node to_node : String)
    (from_sockets : List OutputSocket) (to_sockets : List InputSocket) :
    Except PipelineConnectError (OutputSocket × InputSocket) :=
  match possible_connections_of from_sockets to_sockets with
  | [] => Except.error (PipelineConnectError.noMatch from_node to_node)
  | p :: rest =>
    if rest.isEmpty then
      Except.ok p
    else if (name_matches_of (p :: rest)).length == 1 then
      Except.ok p
    else
      Except.error (PipelineConnectError.ambiguous from_node to_node)

/-- The run-time (pre-flight) validation error kinds.  `pyKeyError` models a
Python `KeyError` from an unguarded dictionary access (unreachable on the
call paths `validate_pipeline_input` actually takes). -/
inductive ValidationError where
  | noInputs
  | unknownComponents (names : List String)
  | missingInput (node socket : String)
  | unexpectedInput (node socket : String)
  | alreadyTaken (socket node taken_by : String)
  | pyKeyError (key : String)
deriving DecidableEq

/-- `not inputs_for_node or not socket.name in inputs_for_node.names()` —
true when no value for `sname` was supplied under `node` in the input map. -/
def socket_value_missing (input_values : InputMap) (node : String) (sname : String) : Bool :=
  match dict_get input_values node with
  | none => true
  | some e => !(decide (sname ∈ entryNames e))

/-- The raise condition of `_validate_input_sockets_are_connected` for one
socket: no declared default on the component instance and no supplied
value.  Translated from the source. -/
def socket_missing (g : PGraph) (input_values : InputMap) (node : String)
    (socket : InputSocket) : Bool :=
  !(decide (socket.name ∈ ((lookupNode g node).map ComponentNode.defaults).getD [])) &&
    socket_value_missing input_values node socket.name

/-- The body of the inner loop of `_validate_input_sockets_are_connected`,
for one node: scan its unconnected sockets and raise `Missing input` for the
first one that has no declared default and no supplied value.  Translated
from the source. -/
def checkMissingForSockets (g : PGraph) (input_values : InputMap) (node : String) :
    List InputSocket → Except ValidationError Unit
  | [] => Except.ok ()
  | socket :: rest =>
    if socket_missing g input_values node socket then
      Except.error (ValidationError.missingInput node socket.name)
    else
      checkMissingForSockets g input_values node rest

/-- The outer loop of `_validate_input_sockets_are_connected` over the
entries of `find_pipeline_inputs`. -/
def checkMissingGo (g : PGraph) (input_values : InputMap) :
    List (String × List InputSocket) → Except ValidationError Unit
  | [] => Except.ok ()
  | (node, sockets) :: rest =>
    match checkMissingForSockets g input_values node sockets with
    | Except.error e => Except.error e
    | Except.ok _ => checkMissingGo g input_values rest

/-- `_validate_input_sockets_are_connected`: every unconnected input socket
must either have a default or be supplied a value.  Translated from the
source. -/
def _validate_input_sockets_are_connected (g : PGraph) (input_values : InputMap) :
    Except ValidationError Unit :=
  checkMissingGo g input_values (find_pipeline_inputs g)

/-- The inner loop of `_validate_nodes_receive_only_expected_input`, for one
map entry: skip falsy values; reject values for undeclared sockets; reject
values for sockets already taken by another node.  Translated from the
source. -/
def checkEntrySockets (g : PGraph) (node : String) :
    List (String × PyValue) → Except ValidationError Unit
  | [] => Except.ok ()
  | (socket_name, value) :: rest =>
    if ¬ pyTruthy value then
      checkEntrySockets g node rest
    else
      match lookupNode g node with
      | none => Except.error (ValidationError.pyKeyError node)
      | some n =>
        match lookupSocket n socket_name with
        | none => Except.error (ValidationError.unexpectedInput node socket_name)
        | some s =>
          match s.taken_by with
          | some t => Except.error (ValidationError.alreadyTaken socket_name node t)
          | none => checkEntrySockets g node rest

/-- `_validate_nodes_receive_only_expected_input`: translated from the
source; iterates the caller-supplied entries in order. -/
def _validate_nodes_receive_only_expected_input (g : PGraph) :
    InputMap → Except ValidationError Unit
  | [] => Except.ok ()
  | (node, entry) :: rest =>
    match checkEntrySockets g node entry with
    | Except.error e => Except.error e
    | Except.ok _ => _validate_nodes_receive_only_expected_input g rest

/-- `graph.nodes[component]["variadic_input"]` as consulted by the variadic
normalization loop. -/
def isVariadic (g : PGraph) (node : String) : Bool :=
  ((lookupNode g node).map ComponentNode.variadic_input).getD false

/-- One step of variadic normalization: a non-iterable value is wrapped into
a one-element list, an iterable one is left alone.  Translated from the
source (`if not isinstance(value, Iterable): ... [value]`). -/
def normalizeValue (v : PyValue) : PyValue :=
  if pyIterable v then v else PyValue.vList [v]

/-- Variadic normalization of one component-input entry. -/
def normalizeEntry (entry : ComponentInputEntry) : ComponentInputEntry :=
  entry.map (fun q => (q.1, normalizeValue q.2))

/-- The variadic-normalization pass of `validate_pipeline_input`: entries of
components flagged variadic get each value normalized, all other entries are
untouched.  Translated from the source loop (which mutates
`input_values[component]` in place). -/
def normalizeMap (g : PGraph) (m : InputMap) : InputMap :=
  m.map (fun p => if isVariadic g p.1 then (p.1, normalizeEntry p.2) else p)

/-- `validate_pipeline_input`: translated from the source, with its four
checks in order and the in-place mutation of the input map modelled as the
returned map. -/
def validate_pipeline_input (g : PGraph) (input_values : InputMap) :
    Except ValidationError InputMap :=
  if (find_pipeline_inputs g).all (fun p => p.2.isEmpty) then
    Except.error ValidationError.noInputs
  else
    if !((input_values.map Prod.fst).filter
        (fun k => !(g.nodes.any (fun n => n.name == k)))).isEmpty then
      Except.error (ValidationError.unknownComponents
        ((input_values.map Prod.fst).filter
          (fun k => !(g.nodes.any (fun n => n.name == k)))))
    else
      match _validate_input_sockets_are_connected g input_values with
      | Except.error e => Except.error e
      | Except.ok _ =>
        match _validate_nodes_receive_only_expected_input g input_values with
        | Except.error e => Except.error e
        | Except.ok _ => Except.ok (normalizeMap g input_values)

/-! ### Helper lemmas -/

theorem takeWhile_ne_dot_append (l r : List Char) (h : '.' ∉ l) :
    (l ++ '.' :: r).takeWhile (fun c => c != '.') = l := by
  induction l with
  | nil => simp [List.takeWhile_cons]
  | cons a l ih =>
    have ha : a ≠ '.' := fun hc => h (hc ▸ List.mem_cons_self a l)
    have hl : '.' ∉ l := fun hc => h (List.mem_cons_of_mem a hc)
    rw [List.cons_append, List.takeWhile_cons]
    simp [ha, ih hl]

theorem dropWhile_ne_dot_append (l r : List Char) (h : '.' ∉ l) :
    (l ++ '.' :: r).dropWhile (fun c => c != '.') = '.' :: r := by
  induction l with
  | nil => simp [List.dropWhile_cons]
  | cons a l ih =>
    have ha : a ≠ '.' := fun hc => h (hc ▸ List.mem_cons_self a l)
    have hl : '.' ∉ l := fun hc => h (List.mem_cons_of_mem a hc)
    rw [List.cons_append, List.dropWhile_cons]
    simp [ha, ih hl]

theorem dict_get_map_eq {α : Type} (nodes : List ComponentNode) (f : ComponentNode → α)
    (n : ComponentNode) (h1 : (nodes.map ComponentNode.name).Nodup) (h2 : n ∈ nodes) :
    dict_get (nodes.map (fun m => (m.name, f m))) n.name = some (f n) := by
  induction nodes with
  | nil => cases h2
  | cons a rest ih =>
    rw [List.map_cons] at h1
    have h1' := List.nodup_cons.mp h1
    by_cases ha : a.name = n.name
    · have hna : n = a := by
        cases h2 with
        | head => rfl
        | tail _ hmem =>
          exact absurd (ha ▸ List.mem_map_of_mem ComponentNode.name hmem) h1'.1
      subst hna
      simp [dict_get, List.find?_cons_of_pos]
    · have hmem : n ∈ rest := by
        cases h2 with
        | head => exact absurd rfl ha
        | tail _ hmem => exact hmem
      have := ih h1'.2 hmem
      simpa [dict_get, List.find?_cons_of_neg, ha] using this

theorem dict_get_map_eq_none {α : Type} (sub : List ComponentNode) (f : ComponentNode → α)
    (key : String) (h : ∀ x ∈ sub, x.name ≠ key) :
    dict_get (sub.map (fun m => (m.name, f m))) key = none := by
  induction sub with
  | nil => rfl
  | cons a rest ih =>
    have ha := h a (List.mem_cons_self a rest)
    have hr : ∀ x ∈ rest, x.name ≠ key := fun x hx => h x (List.mem_cons_of_mem a hx)
    simpa [dict_get, List.find?_cons_of_neg, ha] using ih hr

/-! ### C8 -/

/-- C8: `parse_connection_name` splits on the first `.` when the string
contains one (so the right part keeps every later dot), and returns
`(the whole string, none)` otherwise. -/
theorem C8_parse_connection_name (s l r : List Char) :
    ('.' ∉ s → parse_connection_name s = (s, none)) ∧
    ('.' ∉ l → parse_connection_name (l ++ '.' :: r) = (l, some r)) := by
  constructor
  · intro h
    simp [parse_connection_name, h]
  · intro h
    have hm : '.' ∈ l ++ '.' :: r :=
      List.mem_append_right l (List.mem_cons_self _ _)
    simp [parse_connection_name, hm, takeWhile_ne_dot_append l r h,
      dropWhile_ne_dot_append l r h]

/-- Witness for C8 at `"ab"` and `"a" ++ "." ++ "b.c"`. -/
theorem C8_parse_connection_name_witness :
    parse_connection_name ['a', 'b'] = (['a', 'b'], none) ∧
    parse_connection_name (['a'] ++ '.' :: ['b', '.', 'c']) = (['a'], some ['b', '.', 'c']) :=
  ⟨(C8_parse_connection_name ['a', 'b'] ['a'] ['b', '.', 'c']).1 (by decide),
   (C8_parse_connection_name ['a', 'b'] ['a'] ['b', '.', 'c']).2 (by decide)⟩

/-! ### C6 -/

/-- C6: `find_pipeline_inputs` maps every component node to exactly its
input sockets with empty `taken_by` — a socket is in the node's list iff it
belongs to the node and is untaken, independently of default values. -/
theorem C6_find_pipeline_inputs_exact (g : PGraph) (n : ComponentNode)
    (h1 : (g.nodes.map ComponentNode.name).Nodup) (h2 : n ∈ g.nodes) :
    dict_get (find_pipeline_inputs g) n.name
      = some (n.input_sockets.filter (fun s => s.taken_by.isNone)) ∧
    ∀ s : InputSocket,
      s ∈ n.input_sockets.filter (fun s => s.taken_by.isNone) ↔
        (s ∈ n.input_sockets ∧ s.taken_by = none) := by
  refine ⟨dict_get_map_eq g.nodes _ n h1 h2, ?_⟩
  intro s
  simp [List.mem_filter, Option.isNone_iff_eq_none]

/-- Witness for C6 on a two-socket component with one taken socket. -/
theorem C6_find_pipeline_inputs_exact_witness :
    dict_get
        (find_pipeline_inputs
          ⟨[⟨"B", [⟨"u", "int", some "A"⟩, ⟨"v", "int", none⟩], [], false, ["v"]⟩], []⟩)
        "B"
      = some [⟨"v", "int", none⟩] ∧
    ∀ s : InputSocket,
      s ∈ [InputSocket.mk "v" "int" none] ↔
        (s ∈ [InputSocket.mk "u" "int" (some "A"), InputSocket.mk "v" "int" none] ∧
          s.taken_by = none) := by
  have h := C6_find_pipeline_inputs_exact
    ⟨[⟨"B", [⟨"u", "int", some "A"⟩, ⟨"v", "int", none⟩], [], false, ["v"]⟩], []⟩
    ⟨"B", [⟨"u", "int", some "A"⟩, ⟨"v", "int", none⟩], [], false, ["v"]⟩
    (by decide) (by decide)
  simpa using h

/-! ### C7 -/

/-- C7: `find_pipeline_outputs` has as keys exactly the components without
outgoing edges, each carrying all of its output sockets; a component with an
outgoing edge is absent. -/
theorem C7_find_pipeline_outputs_exact (g : PGraph) (n : ComponentNode)
    (h1 : (g.nodes.map ComponentNode.name).Nodup) (h2 : n ∈ g.nodes) :
    dict_get (find_pipeline_outputs g) n.name
      = (if (out_edges g n.name).isEmpty then some n.output_sockets else none) ∧
    ∀ k l, (k, l) ∈ find_pipeline_outputs g →
      ∃ m ∈ g.nodes, m.name = k ∧ (out_edges g k).isEmpty ∧ l = m.output_sockets := by
  constructor
  · by_cases he : (out_edges g n.name).isEmpty
    · rw [if_pos he]
      have hsub : ((g.nodes.filter (fun n => (out_edges g n.name).isEmpty)).map
          ComponentNode.name).Nodup :=
        ((List.filter_sublist g.nodes).map ComponentNode.name).nodup h1
      have hmem : n ∈ g.nodes.filter (fun n => (out_edges g n.name).isEmpty) :=
        List.mem_filter.mpr ⟨h2, he⟩
      exact dict_get_map_eq _ _ n hsub hmem
    · rw [if_neg he]
      refine dict_get_map_eq_none _ _ n.name ?_
      intro x hx hxname
      have hx' := List.mem_filter.mp hx
      have : x = n := List.inj_on_of_nodup_map h1 hx'.1 h2 hxname
      exact he (this ▸ hx'.2)
  · intro k l hkl
    simp only [find_pipeline_outputs, List.mem_map, List.mem_filter] at hkl
    obtain ⟨m, ⟨hm, hme⟩, heq⟩ := hkl
    obtain ⟨hk, hl⟩ := Prod.mk.injEq .. ▸ heq
    exact ⟨m, hm, hk, hk ▸ hme, hl.symm⟩

/-- Witness for C7 on a two-node graph with one edge. -/
theorem C7_find_pipeline_outputs_exact_witness :
    (dict_get
        (find_pipeline_outputs
          ⟨[⟨"A", [], [⟨"r", "int"⟩], false, []⟩,
            ⟨"B", [⟨"v", "int", some "A"⟩], [⟨"w", "int"⟩], false, []⟩], [("A", "B")]⟩)
        "A"
      = (if (out_edges
            ⟨[⟨"A", [], [⟨"r", "int"⟩], false, []⟩,
              ⟨"B", [⟨"v", "int", some "A"⟩], [⟨"w", "int"⟩], false, []⟩], [("A", "B")]⟩
            "A").isEmpty then some [⟨"r", "int"⟩] else none)) ∧
    ∀ k l, (k, l) ∈ find_pipeline_outputs
        ⟨[⟨"A", [], [⟨"r", "int"⟩], false, []⟩,
          ⟨"B", [⟨"v", "int", some "A"⟩], [⟨"w", "int"⟩], false, []⟩], [("A", "B")]⟩ →
      ∃ m ∈ [ComponentNode.mk "A" [] [⟨"r", "int"⟩] false [],
             ComponentNode.mk "B" [⟨"v", "int", some "A"⟩] [⟨"w", "int"⟩] false []],
        m.name = k ∧
        (out_edges
          ⟨[⟨"A", [], [⟨"r", "int"⟩], false, []⟩,
            ⟨"B", [⟨"v", "int", some "A"⟩], [⟨"w", "int"⟩], false, []⟩], [("A", "B")]⟩
          k).isEmpty ∧
        l = m.output_sockets :=
  C7_find_pipeline_outputs_exact
    ⟨[⟨"A", [], [⟨"r", "int"⟩], false, []⟩,
      ⟨"B", [⟨"v", "int", some "A"⟩], [⟨"w", "int"⟩], false, []⟩], [("A", "B")]⟩
    ⟨"A", [], [⟨"r", "int"⟩], false, []⟩ (by decide) (by decide)

/-! ### C4 -/

/-- C4: `find_unambiguous_connection` raises iff the filtered candidate set
is empty, or it has more than one pair and the name-equality narrowing does
not yield exactly one pair; otherwise it returns a pair. -/
theorem C4_connect_error_iff (from_node to_node : String)
    (from_sockets : List OutputSocket) (to_sockets : List InputSocket) :
    (∃ e, find_unambiguous_connection from_node to_node from_sockets to_sockets
        = Except.error e) ↔
      (possible_connections_of from_sockets to_sockets = [] ∨
       (1 < (possible_connections_of from_sockets to_sockets).length ∧
        (name_matches_of (possible_connections_of from_sockets to_sockets)).length ≠ 1)) := by
  unfold find_unambiguous_connection
  cases hpc : possible_connections_of from_sockets to_sockets with
  | nil => simp
  | cons p rest =>
    by_cases hr : rest.isEmpty
    · have : rest = [] := List.isEmpty_iff.mp hr
      subst this
      simp
    · have hrest : rest ≠ [] := fun h => hr (by simp [h])
      have hpos : 0 < rest.length := List.length_pos.mpr hrest
      have hlen : 1 < (p :: rest).length := by
        rw [List.length_cons]; omega
      by_cases hn : (name_matches_of (p :: rest)).length = 1
      · simp [hr, hn]
      · simp [hr, hn, hlen, hpos]

/-! ### C1 -/

/-- C1 (code bug): with outputs `x, y : int` and untaken inputs
`y, z : int`, the filtered set has four pairs and exactly one name match
`(y, y)`, yet the function returns `(x, y)` — the first element of the
filtered set — not the name-matching pair. -/
theorem C1_returns_first_pair_not_name_match :
    find_unambiguous_connection "A" "B"
        [⟨"x", "int"⟩, ⟨"y", "int"⟩] [⟨"y", "int", none⟩, ⟨"z", "int", none⟩]
      = Except.ok (⟨"x", "int"⟩, ⟨"y", "int", none⟩) ∧
    name_matches_of (possible_connections_of
        [⟨"x", "int"⟩, ⟨"y", "int"⟩] [⟨"y", "int", none⟩, ⟨"z", "int", none⟩])
      = [(⟨"y", "int"⟩, ⟨"y", "int", none⟩)] ∧
    (⟨"x", "int"⟩ : OutputSocket) ≠ ⟨"y", "int"⟩ := by
  refine ⟨rfl, rfl, ?_⟩
  intro h
  exact absurd (congrArg OutputSocket.name h) (by decide)

/-! ### C2 -/

/-- C2 (code bug): a string supplied to a variadic socket is left exactly as
it was — `isinstance(value, Iterable)` holds for strings — instead of being
wrapped into a one-element list as the specification requires. -/
theorem C2_variadic_string_left_unwrapped :
    validate_pipeline_input ⟨[⟨"J", [⟨"items", "str", none⟩], [], true, []⟩], []⟩
        [("J", [("items", PyValue.vStr "abc")])]
      = Except.ok [("J", [("items", PyValue.vStr "abc")])] ∧
    PyValue.vStr "abc" ≠ PyValue.vList [PyValue.vStr "abc"] :=
  ⟨rfl, fun h => PyValue.noConfusion h⟩

/-! ### Lemmas about the two validation passes -/

theorem socket_missing_true_iff (g : PGraph) (m : InputMap) (node : String) (s : InputSocket) :
    socket_missing g m node s = true ↔
      (s.name ∉ ((lookupNode g node).map ComponentNode.defaults).getD [] ∧
       ∀ e, dict_get m node = some e → s.name ∉ entryNames e) := by
  unfold socket_missing socket_value_missing
  cases hd : dict_get m node with
  | none => simp [hd]
  | some e => simp [hd]

theorem checkMissingForSockets_ok_iff (g : PGraph) (m : InputMap) (node : String)
    (sockets : List InputSocket) :
    checkMissingForSockets g m node sockets = Except.ok () ↔
      ∀ s ∈ sockets, socket_missing g m node s = false := by
  induction sockets with
  | nil => simp [checkMissingForSockets]
  | cons s rest ih =>
    by_cases hs : socket_missing g m node s
    · simp [checkMissingForSockets, hs]
    · simp [checkMissingForSockets, hs, ih]

theorem checkMissingForSockets_error_elim (g : PGraph) (m : InputMap) (node : String)
    (sockets : List InputSocket) (e : ValidationError)
    (h : checkMissingForSockets g m node sockets = Except.error e) :
    ∃ s ∈ sockets, socket_missing g m node s = true ∧
      e = ValidationError.missingInput node s.name := by
  induction sockets with
  | nil => simp [checkMissingForSockets] at h
  | cons s rest ih =>
    by_cases hs : socket_missing g m node s
    · simp only [checkMissingForSockets, hs, if_true] at h
      have he : e = ValidationError.missingInput node s.name := by
        cases h; rfl
      exact ⟨s, List.mem_cons_self s rest, hs, he⟩
    · simp only [checkMissingForSockets, hs, if_false] at h
      obtain ⟨s', hs', hcond, he⟩ := ih h
      exact ⟨s', List.mem_cons_of_mem s hs', hcond, he⟩

theorem checkMissingGo_ok_iff (g : PGraph) (m : InputMap)
    (pairs : List (String × List InputSocket)) :
    checkMissingGo g m pairs = Except.ok () ↔
      ∀ pr ∈ pairs, checkMissingForSockets g m pr.1 pr.2 = Except.ok () := by
  induction pairs with
  | nil => simp [checkMissingGo]
  | cons pr rest ih =>
    obtain ⟨node, sockets⟩ := pr
    cases hc : checkMissingForSockets g m node sockets with
    | error e => simp [checkMissingGo, hc]
    | ok u =>
      cases u
      simp [checkMissingGo, hc, ih]

theorem checkMissingGo_error_elim (g : PGraph) (m : InputMap)
    (pairs : List (String × List InputSocket)) (e : ValidationError)
    (h : checkMissingGo g m pairs = Except.error e) :
    ∃ pr ∈ pairs, ∃ s ∈ pr.2, socket_missing g m pr.1 s = true ∧
      e = ValidationError.missingInput pr.1 s.name := by
  induction pairs with
  | nil => simp [checkMissingGo] at h
  | cons pr rest ih =>
    obtain ⟨node, sockets⟩ := pr
    cases hc : checkMissingForSockets g m node sockets with
    | error e' =>
      simp only [checkMissingGo, hc] at h
      have he : e' = e := by cases h; rfl
      obtain ⟨s, hs, hcond, hes⟩ := checkMissingForSockets_error_elim g m node sockets e' hc
      exact ⟨(node, sockets), List.mem_cons_self _ rest, s, hs, hcond, he ▸ hes⟩
    | ok u =>
      cases u
      simp only [checkMissingGo, hc] at h
      obtain ⟨pr', hpr', s, hs, hcond, hes⟩ := ih h
      exact ⟨pr', List.mem_cons_of_mem _ hpr', s, hs, hcond, hes⟩

theorem checkEntrySockets_ok_iff (g : PGraph) (node : String)
    (entry : List (String × PyValue)) :
    checkEntrySockets g node entry = Except.ok () ↔
      ∀ q ∈ entry, pyTruthy q.2 = true →
        ∃ n, lookupNode g node = some n ∧
          ∃ s, lookupSocket n q.1 = some s ∧ s.taken_by = none := by
  induction entry with
  | nil => simp [checkEntrySockets]
  | cons q rest ih =>
    obtain ⟨sname, v⟩ := q
    by_cases hv : pyTruthy v = true
    · cases hn : lookupNode g node with
      | none => simp [checkEntrySockets, hv, hn]
      | some n =>
        cases hsk : lookupSocket n sname with
        | none => simp [checkEntrySockets, hv, hn, hsk]
        | some s =>
          cases ht : s.taken_by with
          | some t => simp [checkEntrySockets, hv, hn, hsk, ht]
          | none => simp [checkEntrySockets, hv, hn, hsk, ht, ih]
    · have hv' : pyTruthy v = false := by
        cases hpv : pyTruthy v
        · rfl
        · exact absurd hpv hv
      simp [checkEntrySockets, hv', ih]

theorem checkEntrySockets_error_elim (g : PGraph) (node : String)
    (entry : List (String × PyValue)) (e : ValidationError)
    (h : checkEntrySockets g node entry = Except.error e) :
    ∃ q ∈ entry, pyTruthy q.2 = true ∧
      ((lookupNode g node = none ∧ e = ValidationError.pyKeyError node) ∨
       (∃ n, lookupNode g node = some n ∧ lookupSocket n q.1 = none ∧
          e = ValidationError.unexpectedInput node q.1) ∨
       (∃ n s t, lookupNode g node = some n ∧ lookupSocket n q.1 = some s ∧
          s.taken_by = some t ∧ e = ValidationError.alreadyTaken q.1 node t)) := by
  induction entry with
  | nil => simp [checkEntrySockets] at h
  | cons q rest ih =>
    obtain ⟨sname, v⟩ := q
    by_cases hv : pyTruthy v = true
    · cases hn : lookupNode g node with
      | none =>
        simp only [checkEntrySockets, hv, hn] at h
        have he : e = ValidationError.pyKeyError node := by
          simp at h
          exact h.symm
        exact ⟨(sname, v), List.mem_cons_self _ rest, hv, Or.inl ⟨rfl, he⟩⟩
      | some n =>
        cases hsk : lookupSocket n sname with
        | none =>
          simp only [checkEntrySockets, hv, hn, hsk] at h
          have he : e = ValidationError.unexpectedInput node sname := by
            simp at h
            exact h.symm
          exact ⟨(sname, v), List.mem_cons_self _ rest, hv,
            Or.inr (Or.inl ⟨n, rfl, hsk, he⟩)⟩
        | some s =>
          cases ht : s.taken_by with
          | some t =>
            simp only [checkEntrySockets, hv, hn, hsk, ht] at h
            have he : e = ValidationError.alreadyTaken sname node t := by
              simp at h
              exact h.symm
            exact ⟨(sname, v), List.mem_cons_self _ rest, hv,
              Or.inr (Or.inr ⟨n, s, t, rfl, hsk, ht, he⟩)⟩
          | none =>
            simp only [checkEntrySockets, hv, hn, hsk, ht] at h
            obtain ⟨q', hq', hv', hcase⟩ := ih (by simpa using h)
            rw [hn] at hcase
            exact ⟨q', List.mem_cons_of_mem _ hq', hv', hcase⟩
    · have hv' : pyTruthy v = false := by
        cases hpv : pyTruthy v
        · rfl
        · exact absurd hpv hv
      simp only [checkEntrySockets, hv'] at h
      obtain ⟨q', hq', hvq, hcase⟩ := ih (by simpa using h)
      exact ⟨q', List.mem_cons_of_mem _ hq', hvq, hcase⟩

theorem validate_nodes_expected_ok_iff (g : PGraph) (m : InputMap) :
    _validate_nodes_receive_only_expected_input g m = Except.ok () ↔
      ∀ pr ∈ m, checkEntrySockets g pr.1 pr.2 = Except.ok () := by
  induction m with
  | nil => simp [_validate_nodes_receive_only_expected_input]
  | cons pr rest ih =>
    obtain ⟨node, entry⟩ := pr
    cases hc : checkEntrySockets g node entry with
    | error e => simp [_validate_nodes_receive_only_expected_input, hc]
    | ok u =>
      cases u
      simp [_validate_nodes_receive_only_expected_input, hc, ih]

theorem validate_nodes_expected_error_elim (g : PGraph) (m : InputMap) (e : ValidationError)
    (h : _validate_nodes_receive_only_expected_input g m = Except.error e) :
    ∃ pr ∈ m, checkEntrySockets g pr.1 pr.2 = Except.error e := by
  induction m with
  | nil => simp [_validate_nodes_receive_only_expected_input] at h
  | cons pr rest ih =>
    obtain ⟨node, entry⟩ := pr
    cases hc : checkEntrySockets g node entry with
    | error e' =>
      simp only [_validate_nodes_receive_only_expected_input, hc] at h
      have he : e' = e := by cases h; rfl
      exact ⟨(node, entry), List.mem_cons_self _ rest, he ▸ hc⟩
    | ok u =>
      cases u
      simp only [_validate_nodes_receive_only_expected_input, hc] at h
      obtain ⟨pr', hpr', hc'⟩ := ih h
      exact ⟨pr', List.mem_cons_of_mem _ hpr', hc'⟩

/-! ### Lemmas about lookups, the early checks and normalization -/

theorem lookupNode_of_exists (g : PGraph) (k : String)
    (h : ∃ n ∈ g.nodes, n.name = k) :
    ∃ n, lookupNode g k = some n ∧ n ∈ g.nodes ∧ n.name = k := by
  obtain ⟨n, hn, hname⟩ := h
  have hsome : (g.nodes.find? (fun m => m.name == k)).isSome := by
    rw [List.find?_isSome]
    exact ⟨n, hn, by simp [hname]⟩
  obtain ⟨a, ha⟩ := Option.isSome_iff_exists.mp hsome
  refine ⟨a, ha, List.mem_of_find?_eq_some ha, ?_⟩
  have := List.find?_some ha
  simpa using this

theorem lookupNode_of_nodup (g : PGraph) (n : ComponentNode)
    (h1 : (g.nodes.map ComponentNode.name).Nodup) (h2 : n ∈ g.nodes) :
    lookupNode g n.name = some n := by
  obtain ⟨a, ha, hmem, hname⟩ := lookupNode_of_exists g n.name ⟨n, h2, rfl⟩
  have : a = n := List.inj_on_of_nodup_map h1 hmem h2 hname
  exact this ▸ ha

theorem all_empty_false_of_untaken (g : PGraph) (n : ComponentNode) (s : InputSocket)
    (hn : n ∈ g.nodes) (hs : s ∈ n.input_sockets) (ht : s.taken_by = none) :
    (find_pipeline_inputs g).all (fun p => p.2.isEmpty) = false := by
  have hmem : (n.name, n.input_sockets.filter (fun s => s.taken_by.isNone))
      ∈ find_pipeline_inputs g :=
    List.mem_map_of_mem _ hn
  have hsf : s ∈ n.input_sockets.filter (fun s => s.taken_by.isNone) :=
    List.mem_filter.mpr ⟨hs, by simp [ht]⟩
  have hne : (n.input_sockets.filter (fun s => s.taken_by.isNone)).isEmpty = false := by
    cases hfe : n.input_sockets.filter (fun s => s.taken_by.isNone) with
    | nil => exact absurd (hfe ▸ hsf) (List.not_mem_nil s)
    | cons a t => rfl
  rw [List.all_eq_false]
  exact ⟨_, hmem, by simpa using hne⟩

theorem unknown_filter_nil (g : PGraph) (m : InputMap)
    (hkeys : ∀ k ∈ m.map Prod.fst, ∃ n ∈ g.nodes, n.name = k) :
    (m.map Prod.fst).filter (fun k => !(g.nodes.any (fun n => n.name == k))) = [] := by
  rw [List.filter_eq_nil_iff]
  intro k hk
  obtain ⟨n, hn, hname⟩ := hkeys k hk
  have : g.nodes.any (fun n => n.name == k) = true := by
    rw [List.any_eq_true]
    exact ⟨n, hn, by simp [hname]⟩
  simp [this]

theorem validate_eq_of_early_checks (g : PGraph) (m : InputMap)
    (h0 : (find_pipeline_inputs g).all (fun p => p.2.isEmpty) = false)
    (h1 : (m.map Prod.fst).filter (fun k => !(g.nodes.any (fun n => n.name == k))) = []) :
    validate_pipeline_input g m =
      (match _validate_input_sockets_are_connected g m with
       | Except.error e => Except.error e
       | Except.ok _ =>
         match _validate_nodes_receive_only_expected_input g m with
         | Except.error e => Except.error e
         | Except.ok _ => Except.ok (normalizeMap g m)) := by
  simp [validate_pipeline_input, h0, h1]

theorem validate_ok_elim (g : PGraph) (m m' : InputMap)
    (h : validate_pipeline_input g m = Except.ok m') :
    m' = normalizeMap g m ∧
    _validate_input_sockets_are_connected g m = Except.ok () ∧
    _validate_nodes_receive_only_expected_input g m = Except.ok () := by
  unfold validate_pipeline_input at h
  by_cases h0 : (find_pipeline_inputs g).all (fun p => p.2.isEmpty)
  · rw [if_pos h0] at h
    exact absurd h (by simp)
  · rw [if_neg h0] at h
    by_cases h1 : (!((m.map Prod.fst).filter
        (fun k => !(g.nodes.any (fun n => n.name == k)))).isEmpty) = true
    · rw [if_pos h1] at h
      exact absurd h (by simp)
    · rw [if_neg h1] at h
      cases hconn : _validate_input_sockets_are_connected g m with
      | error e =>
        rw [hconn] at h
        exact absurd h (by simp)
      | ok u =>
        cases u
        rw [hconn] at h
        cases hexp : _validate_nodes_receive_only_expected_input g m with
        | error e =>
          rw [hexp] at h
          exact absurd h (by simp)
        | ok u' =>
          cases u'
          rw [hexp] at h
          exact ⟨(Except.ok.inj h).symm, rfl, rfl⟩

theorem normalizeValue_idem (v : PyValue) :
    normalizeValue (normalizeValue v) = normalizeValue v := by
  cases v <;> simp [normalizeValue, pyIterable]

theorem normalizeEntry_idem (e : ComponentInputEntry) :
    normalizeEntry (normalizeEntry e) = normalizeEntry e := by
  simp [normalizeEntry, List.map_map, Function.comp_def, normalizeValue_idem]

theorem normalizeMap_idem (g : PGraph) (m : InputMap) :
    normalizeMap g (normalizeMap g m) = normalizeMap g m := by
  induction m with
  | nil => rfl
  | cons p rest ih =>
    simp only [normalizeMap, List.map_cons] at ih ⊢
    by_cases hv : isVariadic g p.1
    · simp [hv, normalizeEntry_idem, ih]
    · simp [hv, ih]

theorem normalizeMap_keys (g : PGraph) (m : InputMap) :
    (normalizeMap g m).map Prod.fst = m.map Prod.fst := by
  induction m with
  | nil => rfl
  | cons p rest ih =>
    simp only [normalizeMap, List.map_cons] at ih ⊢
    by_cases hv : isVariadic g p.1
    · simp [hv, ih]
    · simp [hv, ih]

theorem mem_normalizeMap_of_not_variadic (g : PGraph) (m : InputMap)
    (c : String) (e : ComponentInputEntry)
    (hmem : (c, e) ∈ m) (hv : isVariadic g c = false) :
    (c, e) ∈ normalizeMap g m := by
  have := List.mem_map_of_mem
    (fun p : String × ComponentInputEntry =>
      if isVariadic g p.1 then (p.1, normalizeEntry p.2) else p) hmem
  simpa [normalizeMap, hv] using this

theorem dict_get_mem {α : Type} (m : List (String × α)) (c : String) (e : α)
    (h : dict_get m c = some e) : (c, e) ∈ m := by
  unfold dict_get at h
  cases hf : m.find? (fun p => p.1 == c) with
  | none => rw [hf] at h; simp at h
  | some p =>
    rw [hf] at h
    have hp : p ∈ m := List.mem_of_find?_eq_some hf
    have hpc : p.1 = c := by
      have := List.find?_some hf
      simpa using this
    have hpe : p.2 = e := by simpa using h
    have : (c, e) = p := by
      cases p
      simp at hpc hpe
      simp [hpc, hpe]
    exact this ▸ hp

/-! ### C10 -/

/-- C10: on success, validation returns the given input map with only the
entries of variadic components rewritten (by value normalization): the
result is exactly the normalization of the input, keys are preserved, and
every entry of a non-variadic component is returned untouched.  The graph
is read-only by construction in this embedding, mirroring the source, which
only reads `graph`. -/
theorem C10_validate_frame (g : PGraph) (m m' : InputMap)
    (h : validate_pipeline_input g m = Except.ok m') :
    m' = normalizeMap g m ∧
    m'.map Prod.fst = m.map Prod.fst ∧
    ∀ c e, (c, e) ∈ m → isVariadic g c = false → (c, e) ∈ m' := by
  obtain ⟨hm', -, -⟩ := validate_ok_elim g m m' h
  subst hm'
  exact ⟨rfl, normalizeMap_keys g m,
    fun c e hmem hv => mem_normalizeMap_of_not_variadic g m c e hmem hv⟩

/-- Witness for C10 on a non-variadic one-node pipeline. -/
theorem C10_validate_frame_witness :
    ([("B", [("v", PyValue.vInt 3)])] : InputMap)
        = normalizeMap ⟨[⟨"B", [⟨"v", "int", none⟩], [], false, []⟩], []⟩
            [("B", [("v", PyValue.vInt 3)])] ∧
    ([("B", [("v", PyValue.vInt 3)])] : InputMap).map Prod.fst
        = ([("B", [("v", PyValue.vInt 3)])] : InputMap).map Prod.fst ∧
    ∀ c e, (c, e) ∈ ([("B", [("v", PyValue.vInt 3)])] : InputMap) →
      isVariadic ⟨[⟨"B", [⟨"v", "int", none⟩], [], false, []⟩], []⟩ c = false →
      (c, e) ∈ ([("B", [("v", PyValue.vInt 3)])] : InputMap) :=
  C10_validate_frame ⟨[⟨"B", [⟨"v", "int", none⟩], [], false, []⟩], []⟩
    [("B", [("v", PyValue.vInt 3)])] [("B", [("v", PyValue.vInt 3)])] rfl

/-! ### C9 -/

/-- C9 counterexample: applying validation twice does not always yield the
result of applying it once.  Component `K` is variadic, its socket `items`
is taken by `I`, and the caller supplies the falsy scalar `0` for `items`
(plus `1` for the untaken socket `flag`).  The first validation skips the
conflict check for the falsy `0`, succeeds, and wraps `0` into the truthy
list `[0]`; the second validation then fails with `alreadyTaken`. -/
theorem C9_counterexample :
    validate_pipeline_input
        ⟨[⟨"K", [⟨"items", "int", some "I"⟩, ⟨"flag", "int", none⟩], [], true, []⟩], []⟩
        [("K", [("flag", PyValue.vInt 1), ("items", PyValue.vInt 0)])]
      = Except.ok
          [("K", [("flag", PyValue.vList [PyValue.vInt 1]),
                  ("items", PyValue.vList [PyValue.vInt 0])])] ∧
    validate_pipeline_input
        ⟨[⟨"K", [⟨"items", "int", some "I"⟩, ⟨"flag", "int", none⟩], [], true, []⟩], []⟩
        [("K", [("flag", PyValue.vList [PyValue.vInt 1]),
                ("items", PyValue.vList [PyValue.vInt 0])])]
      = Except.error (ValidationError.alreadyTaken "items" "K" "I") ∧
    (Except.error (ValidationError.alreadyTaken "items" "K" "I")
        : Except ValidationError InputMap)
      ≠ Except.ok
          [("K", [("flag", PyValue.vList [PyValue.vInt 1]),
                  ("items", PyValue.vList [PyValue.vInt 0])])] :=
  ⟨rfl, rfl, fun h => Except.noConfusion h⟩

/-- C9 amended: variadic normalization itself is idempotent — on success the
returned map is the input map with variadic values normalized, already
iterable values (sequences) are left exactly as supplied, and re-normalizing
the returned map changes nothing.  (A second full validation, however, may
fail where the first succeeded, because wrapping a falsy scalar produces a
truthy list that re-arms the conflict check — see the counterexample.) -/
theorem C9_normalization_idempotent (g : PGraph) (m m' : InputMap)
    (h : validate_pipeline_input g m = Except.ok m') :
    normalizeMap g m' = m' ∧
    m' = m.map (fun p =>
      if isVariadic g p.1 then
        (p.1, p.2.map (fun q =>
          (q.1, if pyIterable q.2 then q.2 else PyValue.vList [q.2])))
      else p) := by
  obtain ⟨hm', -, -⟩ := validate_ok_elim g m m' h
  subst hm'
  exact ⟨normalizeMap_idem g m, rfl⟩

/-- Witness for C9 on a variadic pipeline whose supplied list survives
validation unchanged. -/
theorem C9_normalization_idempotent_witness :
    normalizeMap ⟨[⟨"J", [⟨"items", "int", none⟩], [], true, []⟩], []⟩
        [("J", [("items", PyValue.vList [PyValue.vInt 1, PyValue.vInt 2])])]
      = [("J", [("items", PyValue.vList [PyValue.vInt 1, PyValue.vInt 2])])] ∧
    ([("J", [("items", PyValue.vList [PyValue.vInt 1, PyValue.vInt 2])])] : InputMap)
      = ([("J", [("items", PyValue.vList [PyValue.vInt 1, PyValue.vInt 2])])]
          : InputMap).map (fun p =>
        if isVariadic ⟨[⟨"J", [⟨"items", "int", none⟩], [], true, []⟩], []⟩ p.1 then
          (p.1, p.2.map (fun q =>
            (q.1, if pyIterable q.2 then q.2 else PyValue.vList [q.2])))
        else p) :=
  C9_normalization_idempotent
    ⟨[⟨"J", [⟨"items", "int", none⟩], [], true, []⟩], []⟩
    [("J", [("items", PyValue.vList [PyValue.vInt 1, PyValue.vInt 2])])]
    [("J", [("items", PyValue.vList [PyValue.vInt 1, PyValue.vInt 2])])] rfl

/-! ### C5 -/

/-- C5: whenever some component has an unconnected (`taken_by` empty) input
socket with no declared default whose value is not supplied in the input
map (`socket_value_missing`), `validate_pipeline_input` fails with a
`Missing input` error identifying an offending `component.socket`.  Assumes
the graph's node names are distinct (a Python dict invariant) and that every
input-map key names a graph node (otherwise the earlier unknown-component
check fires first). -/
theorem C5_missing_required_input (g : PGraph) (m : InputMap)
    (hnodup : (g.nodes.map ComponentNode.name).Nodup)
    (hkeys : ∀ k ∈ m.map Prod.fst, ∃ n ∈ g.nodes, n.name = k)
    (n : ComponentNode) (s : InputSocket)
    (hn : n ∈ g.nodes) (hs : s ∈ n.input_sockets)
    (huntaken : s.taken_by = none)
    (hnodef : s.name ∉ n.defaults)
    (hnosupply : socket_value_missing m n.name s.name = true) :
    ∃ n' ∈ g.nodes, ∃ s' ∈ n'.input_sockets, s'.taken_by = none ∧
      s'.name ∉ n'.defaults ∧ socket_value_missing m n'.name s'.name = true ∧
      validate_pipeline_input g m
        = Except.error (ValidationError.missingInput n'.name s'.name) := by
  have h0 := all_empty_false_of_untaken g n s hn hs huntaken
  have h1 := unknown_filter_nil g m hkeys
  have hlook := lookupNode_of_nodup g n hnodup hn
  have hoffend : socket_missing g m n.name s = true := by
    simp [socket_missing, hlook, hnodef, hnosupply]
  have hnotok : checkMissingGo g m (find_pipeline_inputs g) ≠ Except.ok () := by
    intro hok
    have hall := (checkMissingGo_ok_iff g m (find_pipeline_inputs g)).mp hok
    have hmem : (n.name, n.input_sockets.filter (fun s => s.taken_by.isNone))
        ∈ find_pipeline_inputs g := List.mem_map_of_mem _ hn
    have hsock := (checkMissingForSockets_ok_iff g m n.name
        (n.input_sockets.filter (fun s => s.taken_by.isNone))).mp (hall _ hmem)
    have hsf : s ∈ n.input_sockets.filter (fun s => s.taken_by.isNone) :=
      List.mem_filter.mpr ⟨hs, by simp [huntaken]⟩
    rw [hsock s hsf] at hoffend
    exact Bool.noConfusion hoffend
  cases hgo : checkMissingGo g m (find_pipeline_inputs g) with
  | ok u =>
    cases u
    exact absurd hgo hnotok
  | error e =>
    obtain ⟨pr, hpr, s', hs', hcond, he⟩ :=
      checkMissingGo_error_elim g m (find_pipeline_inputs g) e hgo
    simp only [find_pipeline_inputs, List.mem_map] at hpr
    obtain ⟨n', hn', hprn⟩ := hpr
    have hpr1 : pr.1 = n'.name := by rw [← hprn]
    have hpr2 : pr.2 = n'.input_sockets.filter (fun s => s.taken_by.isNone) := by
      rw [← hprn]
    rw [hpr2] at hs'
    have hs'mem := (List.mem_filter.mp hs').1
    have hs'none : s'.taken_by = none := by
      have := (List.mem_filter.mp hs').2
      simpa [Option.isNone_iff_eq_none] using this
    rw [hpr1] at hcond he
    have hlook' := lookupNode_of_nodup g n' hnodup hn'
    have hcond' := (socket_missing_true_iff g m n'.name s').mp hcond
    have hnodef' : s'.name ∉ n'.defaults := by
      have := hcond'.1
      simpa [hlook'] using this
    have hmiss' : socket_value_missing m n'.name s'.name = true := by
      unfold socket_value_missing
      cases hd : dict_get m n'.name with
      | none => rfl
      | some e' => simp [hcond'.2 e' hd]
    have hval := validate_eq_of_early_checks g m h0 h1
    rw [show _validate_input_sockets_are_connected g m = Except.error e from hgo] at hval
    exact ⟨n', hn', s', hs'mem, hs'none, hnodef', hmiss', he ▸ hval⟩

/-- Witness for C5: component `G` has the unconnected, default-less socket
`x` and the caller supplies nothing. -/
theorem C5_missing_required_input_witness :
    ∃ n' ∈ [ComponentNode.mk "G" [⟨"x", "int", none⟩] [] false []],
      ∃ s' ∈ n'.input_sockets, s'.taken_by = none ∧
        s'.name ∉ n'.defaults ∧ socket_value_missing [] n'.name s'.name = true ∧
        validate_pipeline_input ⟨[⟨"G", [⟨"x", "int", none⟩], [], false, []⟩], []⟩ []
          = Except.error (ValidationError.missingInput n'.name s'.name) :=
  C5_missing_required_input ⟨[⟨"G", [⟨"x", "int", none⟩], [], false, []⟩], []⟩ []
    (by decide) (by simp)
    ⟨"G", [⟨"x", "int", none⟩], [], false, []⟩ ⟨"x", "int", none⟩
    (by decide) (by decide) rfl (by decide) rfl

/-! ### C3 -/

/-- C3 counterexample: component `H` has socket `y` taken by `I` and
untaken socket `z`; the caller supplies the falsy value `0` for the
edge-fed socket `y` (and `5` for `z`).  The claim says any external value
for a `taken_by` socket is always rejected, regardless of the value — but
the conflict check skips falsy values (`if not getattr(...): continue`),
and validation succeeds. -/
theorem C3_counterexample :
    lookupSocket ⟨"H", [⟨"y", "int", some "I"⟩, ⟨"z", "int", none⟩], [], false, []⟩ "y"
      = some ⟨"y", "int", some "I"⟩ ∧
    dict_get [("H", [("z", PyValue.vInt 5), ("y", PyValue.vInt 0)])] "H"
      = some [("z", PyValue.vInt 5), ("y", PyValue.vInt 0)] ∧
    validate_pipeline_input
        ⟨[⟨"H", [⟨"y", "int", some "I"⟩, ⟨"z", "int", none⟩], [], false, []⟩], []⟩
        [("H", [("z", PyValue.vInt 5), ("y", PyValue.vInt 0)])]
      = Except.ok [("H", [("z", PyValue.vInt 5), ("y", PyValue.vInt 0)])] :=
  ⟨rfl, rfl, rfl⟩

/-- C3 amended: an external value for an edge-fed (`taken_by`) socket is
rejected whenever the supplied value is truthy — falsy values are skipped
by the conflict check.  Under the preconditions that make the earlier
checks pass (some socket is unconnected, all input-map keys name graph
nodes, the missing-input pass succeeds, and every truthy entry names a
declared socket), validation fails with an `alreadyTaken` error naming an
offending socket, its component, and the supplying component. -/
theorem C3_conflict_rejected_for_truthy (g : PGraph) (m : InputMap)
    (hinputs : ∃ n ∈ g.nodes, ∃ s ∈ n.input_sockets, s.taken_by = none)
    (hkeys : ∀ k ∈ m.map Prod.fst, ∃ n ∈ g.nodes, n.name = k)
    (hnomissing : _validate_input_sockets_are_connected g m = Except.ok ())
    (hdeclared : ∀ p ∈ m, ∀ q ∈ p.2, pyTruthy q.2 = true →
      ((lookupNode g p.1).bind (fun nd => lookupSocket nd q.1)).isSome = true)
    (c : String) (entry : ComponentInputEntry) (sname : String) (v : PyValue)
    (hce : dict_get m c = some entry) (hsv : dict_get entry sname = some v)
    (htr : pyTruthy v = true)
    (nd : ComponentNode) (sd : InputSocket) (t : String)
    (hnd : lookupNode g c = some nd) (hsd : lookupSocket nd sname = some sd)
    (htaken : sd.taken_by = some t) :
    ∃ c' s' t', validate_pipeline_input g m
        = Except.error (ValidationError.alreadyTaken s' c' t') ∧
      ∃ entry', (c', entry') ∈ m ∧ ∃ v', (s', v') ∈ entry' ∧ pyTruthy v' = true ∧
        ∃ nd' sd', lookupNode g c' = some nd' ∧ lookupSocket nd' s' = some sd' ∧
          sd'.taken_by = some t' := by
  obtain ⟨n0, hn0, s0, hs0, hs0none⟩ := hinputs
  have h0 := all_empty_false_of_untaken g n0 s0 hn0 hs0 hs0none
  have h1 := unknown_filter_nil g m hkeys
  have hval := validate_eq_of_early_checks g m h0 h1
  rw [hnomissing] at hval
  have hnotok : _validate_nodes_receive_only_expected_input g m ≠ Except.ok () := by
    intro hok
    have hall := (validate_nodes_expected_ok_iff g m).mp hok
    have hmem : (c, entry) ∈ m := dict_get_mem m c entry hce
    have hentry := (checkEntrySockets_ok_iff g c entry).mp (hall _ hmem)
    obtain ⟨n', hn', s', hs', hs'none⟩ :=
      hentry (sname, v) (dict_get_mem entry sname v hsv) htr
    rw [hnd] at hn'
    cases Option.some.inj hn'
    rw [hsd] at hs'
    cases Option.some.inj hs'
    rw [htaken] at hs'none
    exact Option.noConfusion hs'none
  cases hexp : _validate_nodes_receive_only_expected_input g m with
  | ok u =>
    cases u
    exact absurd hexp hnotok
  | error e =>
    rw [hexp] at hval
    obtain ⟨pr, hpr, hces⟩ := validate_nodes_expected_error_elim g m e hexp
    obtain ⟨q, hq, hqtr, hcase⟩ := checkEntrySockets_error_elim g pr.1 pr.2 e hces
    rcases hcase with ⟨hnone, -⟩ | ⟨n', hn', hskn, -⟩ | ⟨n', s', t', hn', hsk', ht', he⟩
    · have hk : pr.1 ∈ m.map Prod.fst := List.mem_map_of_mem Prod.fst hpr
      obtain ⟨a, ha, -, -⟩ := lookupNode_of_exists g pr.1 (hkeys pr.1 hk)
      rw [hnone] at ha
      exact Option.noConfusion ha
    · have := hdeclared pr hpr q hq hqtr
      rw [hn', Option.some_bind, hskn] at this
      exact Bool.noConfusion (Option.isSome_none ▸ this)
    · refine ⟨pr.1, q.1, t', he ▸ hval, pr.2, ?_, q.2, ?_, hqtr, n', s', hn', hsk', ht'⟩
      · simpa using hpr
      · simpa using hq

/-- Witness for C3 amended: `y` taken by `I`, caller supplies the truthy
value `7` for it. -/
theorem C3_conflict_rejected_for_truthy_witness :
    ∃ c' s' t', validate_pipeline_input
        ⟨[⟨"H", [⟨"y", "int", some "I"⟩, ⟨"z", "int", none⟩], [], false, []⟩], []⟩
        [("H", [("z", PyValue.vInt 5), ("y", PyValue.vInt 7)])]
        = Except.error (ValidationError.alreadyTaken s' c' t') ∧
      ∃ entry', (c', entry') ∈
          ([("H", [("z", PyValue.vInt 5), ("y", PyValue.vInt 7)])] : InputMap) ∧
        ∃ v', (s', v') ∈ entry' ∧ pyTruthy v' = true ∧
          ∃ nd' sd', lookupNode
              ⟨[⟨"H", [⟨"y", "int", some "I"⟩, ⟨"z", "int", none⟩], [], false, []⟩], []⟩
              c' = some nd' ∧
            lookupSocket nd' s' = some sd' ∧ sd'.taken_by = some t' :=
  C3_conflict_rejected_for_truthy
    ⟨[⟨"H", [⟨"y", "int", some "I"⟩, ⟨"z", "int", none⟩], [], false, []⟩], []⟩
    [("H", [("z", PyValue.vInt 5), ("y", PyValue.vInt 7)])]
    (by decide) (by decide) rfl (by decide)
    "H" [("z", PyValue.vInt 5), ("y", PyValue.vInt 7)] "y" (PyValue.vInt 7)
    rfl rfl rfl
    ⟨"H", [⟨"y", "int", some "I"⟩, ⟨"z", "int", none⟩], [], false, []⟩
    ⟨"y", "int", some "I"⟩ "I" rfl rfl rfl

end Canals
